import Mathlib

/-!
Shallow embedding of the SolApp backend core (Backend/app/api/tokens.py,
Backend/app/api/wallets.py, Backend/app/models/__init__.py).

Remote RPC interactions (the solana `Client` object and the solders data
types) are external collaborators; each operation is parametrised by an
environment record holding the values the remote endpoint returns on this
run.  Python floats produced by dividing lamport integers by 1e9 are
modelled as rationals (all divisions involved are exact).  Pydantic model
construction is modelled field by field: a required declared field that the
call site does not supply makes construction fail with a validation error,
and unknown keyword arguments are ignored, exactly as pydantic does.
-/

namespace SolApp

/-- Error raised by an endpoint: either an HTTPException with a status code
and detail string, or a pydantic validation error for the named model. -/
inductive Err where
  | http (status : Nat) (detail : String)
  | validation (model : String)
deriving DecidableEq, Repr

/-- String rendering of an exception, used when an except-block re-raises
`HTTPException(status_code=500, detail=str(e))`. -/
def Err.msg : Err → String
  | .http _ d => d
  | .validation m => "validation error for " ++ m

/-- Re-raise of a caught exception as `HTTPException(500, str(e))`. -/
def wrapHttp (e : Err) : Err := .http 500 e.msg

/-! ### Wallet store (wallets.py, module-level `wallets` dict) -/

/-- Stored wallet record: the dict built in `create_wallet`. -/
structure WalletRec where
  public_key : String
  private_key : String
  name : String
deriving DecidableEq, Repr

/-- In-memory wallet store: a Python dict keyed by public key, modelled as
an insertion-ordered association list. -/
def Store := List (String × WalletRec)

/-- Dict lookup `wallets[k]` / membership `k in wallets`. -/
def storeLookup : Store → String → Option WalletRec
  | [], _ => none
  | (k, w) :: t, k' => if k = k' then some w else storeLookup t k'

/-- Dict assignment `wallets[k] = w`: updates the existing key in place or
appends a new key at the end, as a Python dict does. -/
def storeInsert : Store → String → WalletRec → Store
  | [], k, w => [(k, w)]
  | (k0, w0) :: t, k, w =>
      if k0 = k then (k0, w) :: t else (k0, w0) :: storeInsert t k w

/-! ### Pydantic response models (models/__init__.py) -/

/-- Request body of POST /wallets/wallet. -/
structure WalletCreate where
  name : String
deriving DecidableEq, Repr

/-- Declared fields of the `WalletResponse` pydantic model: note that
`private_key` is a declared, required response field. -/
structure WalletResponse where
  private_key : String
  public_key : String
  name : String
deriving DecidableEq, Repr

/-- Pydantic construction of `WalletResponse`: each argument is `some v`
when the call site passes the keyword and `none` when it omits it; all
three declared fields are required, so a missing one raises
ValidationError. -/
def WalletResponse.build (private_key public_key name : Option String) :
    Except Err WalletResponse :=
  match private_key, public_key, name with
  | some sk, some pk, some n => .ok ⟨sk, pk, n⟩
  | _, _, _ => .error (.validation "WalletResponse")

/-! ### create_wallet / get_wallets / get_wallet (wallets.py) -/

/-- POST /wallets/wallet.  The keypair generated from `os.urandom(32)` is
abstracted by the `public_key` and `private_key` (seed hex) arguments.  The
wallet dict is stored in `wallets` first; the endpoint then builds its
response with `WalletResponse(public_key=..., name=...)`, omitting the
required `private_key` field, and any exception is re-raised as
`HTTPException(500, str(e))`. -/
def create_wallet (store : Store) (wallet_data : WalletCreate)
    (public_key private_key : String) : Store × Except Err WalletResponse :=
  let wallet : WalletRec := ⟨public_key, private_key, wallet_data.name⟩
  let store' := storeInsert store public_key wallet
  match WalletResponse.build none (some wallet.public_key) (some wallet.name) with
  | .ok r => (store', .ok r)
  | .error e => (store', .error (wrapHttp e))

/-- GET /wallets: returns `list(wallets.values())`; FastAPI then serialises
each stored dict through `response_model=List[WalletResponse]`, whose
declared fields include `private_key`, so every field of the stored record
appears in the response. -/
def get_wallets (store : Store) : List WalletResponse :=
  store.map (fun p => ⟨p.2.private_key, p.2.public_key, p.2.name⟩)

/-- GET /wallets/{public_key}: 404 when the key is absent, otherwise the
stored dict serialised through `response_model=WalletResponse` (again
including `private_key`). -/
def get_wallet (store : Store) (public_key : String) : Except Err WalletResponse :=
  match storeLookup store public_key with
  | none => .error (.http 404 "Wallet not found")
  | some w => .ok ⟨w.private_key, w.public_key, w.name⟩

/-! ### Store lemmas -/

theorem storeLookup_storeInsert_self (s : Store) (k : String) (w : WalletRec) :
    storeLookup (storeInsert s k w) k = some w := by
  induction s with
  | nil => simp [storeInsert, storeLookup]
  | cons hd t ih =>
      obtain ⟨k0, w0⟩ := hd
      by_cases h : k0 = k
      · simp [storeInsert, h, storeLookup]
      · simp [storeInsert, h, storeLookup, ih]

/-! ### Claim C1 and claim C10 -/

/-- C1 (code evaluated at the failing input): a stored wallet with seed hex
"deadbeef" is returned by GET /wallets/{pk} with its `private_key` field
holding that seed, because `get_wallet` returns the stored dict and the
response model `WalletResponse` declares `private_key`.  The secret key
material therefore appears verbatim in a wallet-facing response,
contradicting the claim that responses are a function of public key and
name only. -/
theorem get_wallet_returns_private_key :
    get_wallet [("PK", ⟨"PK", "deadbeef", "w"⟩)] "PK" =
      Except.ok ⟨"deadbeef", "PK", "w"⟩ ∧
    get_wallets [("PK", ⟨"PK", "deadbeef", "w"⟩)] = [⟨"deadbeef", "PK", "w"⟩] :=
  ⟨rfl, rfl⟩

/-- C10: `create_wallet` stores the new wallet record (with its secret
seed) before the response is built; the response construction fails
(pydantic rejects the `WalletResponse` call that omits the required
`private_key` field), so the endpoint returns an error while the store
nevertheless contains the newly created wallet. -/
theorem create_wallet_not_atomic (store : Store) (d : WalletCreate)
    (pk sk : String) :
    (create_wallet store d pk sk).2.isOk = false ∧
    storeLookup (create_wallet store d pk sk).1 pk = some ⟨pk, sk, d.name⟩ := by
  refine ⟨rfl, ?_⟩
  simp only [create_wallet]
  exact storeLookup_storeInsert_self store pk ⟨pk, sk, d.name⟩

/-! ### Balance assembler (wallets.py, get_wallet_balance) -/

/-- Declared fields of the `TokenBalance` pydantic model (models): note the
first declared field is `symbol`, not a mint address. -/
structure TokenBalance where
  symbol : String
  balance : ℚ
  usd_value : Option ℚ
deriving DecidableEq, Repr

/-- Pydantic construction of `TokenBalance`.  `symbol` and `balance` are
required (`balance : float` also rejects a JSON null), `usd_value` is
Optional; unknown keyword arguments (such as the `address=` keyword that
`get_wallet_balance` passes) are ignored by pydantic, so they do not appear
here. -/
def TokenBalance.build (symbol : Option String) (balance : Option (Option ℚ))
    (usd_value : Option ℚ) : Except Err TokenBalance :=
  match symbol, balance with
  | some s, some (some b) => .ok ⟨s, b, usd_value⟩
  | _, _ => .error (.validation "TokenBalance")

/-- Declared fields of the `WalletBalance` pydantic model. -/
structure WalletBalance where
  sol_balance : ℚ
  usd_value : Option ℚ
  tokens : List TokenBalance
deriving DecidableEq, Repr

/-- Innermost piece of a `getTokenAccountsByOwner` entry:
`parsed_data["tokenAmount"]`.  The outer `Option` on `uiAmount` is key
presence; the inner one is a JSON null value. -/
structure RawTokenAmount where
  uiAmount : Option (Option ℚ)
deriving DecidableEq, Repr

/-- The dict `account["account"]["data"]["parsed"]["info"]`; each field is
`none` when the key is missing. -/
structure RawParsedInfo where
  mint : Option String
  tokenAmount : Option RawTokenAmount
deriving DecidableEq, Repr

/-- One entry of `token_response_data["result"]["value"]`; `info` is `none`
when any level of the nested access raises KeyError or TypeError. -/
structure RawTokenAccount where
  info : Option RawParsedInfo
deriving DecidableEq, Repr

/-- The dict accesses inside the per-account `try` block: returns the mint
string and the (possibly null) uiAmount, or `none` when a KeyError or
TypeError occurs. -/
def parseTokenAccount (acct : RawTokenAccount) : Option (String × Option ℚ) :=
  match acct.info with
  | none => none
  | some i =>
      match i.mint with
      | none => none
      | some m =>
          match i.tokenAmount with
          | none => none
          | some ta =>
              match ta.uiAmount with
              | none => none
              | some ui => some (m, ui)

/-- The token-account loop: a KeyError or TypeError in the parse is caught
and the entry skipped (`continue`); the subsequent
`TokenBalance(address=..., balance=..., usd_value=None)` construction is
outside that protection, so its ValidationError aborts the loop. -/
def buildTokenBalances : List RawTokenAccount → Except Err (List TokenBalance)
  | [] => .ok []
  | acct :: rest =>
      match parseTokenAccount acct with
      | none => buildTokenBalances rest
      | some (_mint, ui) =>
          match TokenBalance.build none (some ui) none with
          | .error e => .error e
          | .ok tb =>
              match buildTokenBalances rest with
              | .error e => .error e
              | .ok tbs => .ok (tb :: tbs)

/-- Environment for GET /wallets/{pk}/balance: the value returned by
`client.get_balance(...).value` and the token-account list extracted from
the raw `getTokenAccountsByOwner` POST (`none` when the response lacks the
`result`/`value` keys, in which case the loop body never runs). -/
structure BalanceEnv where
  getBalance : String → Option Nat
  tokenAccounts : Option (List RawTokenAccount)

/-- GET /wallets/{public_key}/balance.  A missing native balance raises
HTTPException(500); otherwise lamports are converted to SOL by dividing by
1e9, the token accounts are parsed, and any uncaught exception is
re-raised as `HTTPException(500, str(e))`. -/
def get_wallet_balance (env : BalanceEnv) (public_key : String) :
    Except Err WalletBalance :=
  match env.getBalance public_key with
  | none => .error (wrapHttp (.http 500 "Failed to fetch SOL balance"))
  | some lamports =>
      let sol_balance : ℚ := (lamports : ℚ) / 1000000000
      let token_balances :=
        match env.tokenAccounts with
        | none => Except.ok ([] : List TokenBalance)
        | some accts => buildTokenBalances accts
      match token_balances with
      | .error e => .error (wrapHttp e)
      | .ok tbs => .ok ⟨sol_balance, none, tbs⟩

/-! ### Claim C3 and claim C8 -/

/-- Balance environment exercising the C3 failing input: a defined native
balance, one malformed token-account entry and one well-formed entry
(mint "MINT", uiAmount 1). -/
def envC3 : BalanceEnv :=
  { getBalance := fun _ => some 1000000000
    tokenAccounts := some [⟨none⟩, ⟨some ⟨some "MINT", some ⟨some (some 1)⟩⟩⟩] }

/-- Balance environment whose token accounts are all malformed. -/
def envC3m : BalanceEnv :=
  { getBalance := fun _ => some 1000000000
    tokenAccounts := some [⟨none⟩, ⟨some ⟨some "MINT", none⟩⟩] }

/-- C3 (code evaluated at the failing input): with a defined native balance
and a single well-formed token-account entry, `get_wallet_balance` fails
with HTTP 500 instead of returning the native balance, because the loop
constructs `TokenBalance` with an `address=` keyword while the model
requires a `symbol` field, and the resulting ValidationError escapes the
KeyError/TypeError handler.  By contrast, when every entry is malformed the
parse failures are caught and the native balance is returned with an empty
token list, as the claim describes. -/
theorem wallet_balance_wellformed_entry_raises :
    get_wallet_balance envC3 "addr1" =
      Except.error (.http 500 "validation error for TokenBalance") ∧
    get_wallet_balance envC3m "addr1" = Except.ok ⟨1, none, []⟩ := by
  constructor
  · rfl
  · show Except.ok (⟨(1000000000 : ℚ) / 1000000000, none, []⟩ : WalletBalance) =
        Except.ok (⟨1, none, []⟩ : WalletBalance)
    have h : (1000000000 : ℚ) / 1000000000 = 1 := by norm_num
    rw [h]

/-- C8: for any address whose native balance is 2500000000 lamports and
which owns zero token accounts, `get_wallet_balance` returns a view with
native balance 2.5 SOL and an empty token list. -/
theorem wallet_balance_scenario (env : BalanceEnv) (addr : String)
    (h1 : env.getBalance addr = some 2500000000)
    (h2 : env.tokenAccounts = some []) :
    get_wallet_balance env addr = Except.ok ⟨5 / 2, none, []⟩ := by
  simp only [get_wallet_balance, h1, h2, buildTokenBalances]
  norm_num

/-! ### Token aggregator (tokens.py, get_trending_tokens) -/

/-- SPL token program id (spl.token.constants.TOKEN_PROGRAM_ID). -/
def TOKEN_PROGRAM_ID : String := "TokenkegQfeZyiNwAJbNbGKPFXCWuBvf9Ss623VQ5DA"

/-- Response model `TokenX` (imported under that name in tokens.py and
declared in models): symbol, name, address, optional price. -/
structure TokenX where
  symbol : String
  name : String
  address : String
  price : Option ℚ
deriving DecidableEq, Repr

/-- Request body of POST /tokens/custom (`CustomToken` model). -/
structure CustomToken where
  name : String
  symbol : String
  decimals : Int
  total_supply : Int
deriving DecidableEq, Repr

/-- One entry of `get_recent_performance_samples(...).value`. -/
structure PerfSample where
  slot : Nat
deriving DecidableEq, Repr

/-- Message of one transaction inside a fetched block: only the referenced
account keys are inspected by the aggregator. -/
structure BlockTxMsg where
  account_keys : List String
deriving DecidableEq, Repr

/-- One transaction of a fetched block (`tx.transaction.message`). -/
structure BlockTx where
  message : BlockTxMsg
deriving DecidableEq, Repr

/-- A fetched block (`client.get_block(slot).value`). -/
structure BlockData where
  transactions : List BlockTx
deriving DecidableEq, Repr

/-- Decoded mint info (`token.get_mint_info()`). -/
structure MintInfo where
  supply : Nat
  decimals : Nat
deriving DecidableEq, Repr

/-- The metadata dict built by `get_token_metadata`. -/
structure TokenMeta where
  address : String
  supply : Nat
  decimals : Nat
deriving DecidableEq, Repr

/-- Accumulator value of the `token_transactions` dict: participation count
and the metadata captured at first sighting. -/
structure CandInfo where
  count : Nat
  metadata : TokenMeta
deriving DecidableEq, Repr

/-- Environment of successful RPC responses for one trending scan:
performance samples, per-slot block lookup, and the account-info and
mint-info lookups used by `get_token_metadata`. -/
structure RpcEnv where
  perfSamples : List PerfSample
  getBlock : Nat → Option BlockData
  getAccountInfo : String → Option Unit
  getMintInfo : String → Option MintInfo

/-- Helper `get_token_metadata`: `none` when the account does not exist or
the mint info cannot be decoded (every exception is collapsed to `None` by
the source); otherwise the metadata dict. -/
def get_token_metadata (env : RpcEnv) (token_address : String) : Option TokenMeta :=
  match env.getAccountInfo token_address with
  | none => none
  | some _ =>
      match env.getMintInfo token_address with
      | none => none
      | some mi => some ⟨token_address, mi.supply, mi.decimals⟩

/-- Python dict update for `token_transactions`: an address not yet present
is appended at the end with count 0 and the metadata of this sighting, then
the count is incremented; an address already present keeps its position and
metadata and gains one count. -/
def bumpCandidate : List (String × CandInfo) → String → TokenMeta →
    List (String × CandInfo)
  | [], addr, meta => [(addr, ⟨1, meta⟩)]
  | (a, ci) :: t, addr, meta =>
      if a = addr then (a, ⟨ci.count + 1, ci.metadata⟩) :: t
      else (a, ci) :: bumpCandidate t addr meta

/-- Inner loop over the account keys of one token-program transaction:
accounts whose metadata does not resolve are skipped, the rest are counted. -/
def scanAccounts (env : RpcEnv) (acc : List (String × CandInfo))
    (keys : List String) : List (String × CandInfo) :=
  keys.foldl
    (fun acc account =>
      match get_token_metadata env account with
      | none => acc
      | some meta => bumpCandidate acc account meta)
    acc

/-- Per-transaction step: only transactions referencing the token program
are scanned. -/
def scanTx (env : RpcEnv) (acc : List (String × CandInfo)) (tx : BlockTx) :
    List (String × CandInfo) :=
  if TOKEN_PROGRAM_ID ∈ tx.message.account_keys then
    scanAccounts env acc tx.message.account_keys
  else acc

/-- Per-slot step: an unavailable block is skipped (logged and the loop
continues). -/
def scanSlot (env : RpcEnv) (acc : List (String × CandInfo)) (slot : Nat) :
    List (String × CandInfo) :=
  match env.getBlock slot with
  | none => acc
  | some block => block.transactions.foldl (scanTx env) acc

/-- The `token_transactions` dict after the whole scan, in insertion
(first-seen) order.  The slots are those of the first five performance
samples (`performance_samples[:5]`). -/
def candList (env : RpcEnv) : List (String × CandInfo) :=
  ((env.perfSamples.take 5).map PerfSample.slot).foldl (scanSlot env) []

/-- The `sorted_tokens` local: candidates sorted by participation count
descending with Python sorted (a stable sort, so ties keep insertion
order), truncated to the first `limit`. -/
def rankedCandidates (env : RpcEnv) (limit : Nat) : List (String × CandInfo) :=
  ((candList env).insertionSort (fun a b => b.2.count ≤ a.2.count)).take limit

/-- GET /tokens/trending: an empty performance-sample list raises
HTTPException(500, "Failed to fetch recent blocks"); otherwise the ranked
candidates are rendered as `TokenX` records. -/
def get_trending_tokens (env : RpcEnv) (limit : Nat) : Except Err (List TokenX) :=
  match env.perfSamples with
  | [] => .error (wrapHttp (.http 500 "Failed to fetch recent blocks"))
  | _ :: _ =>
      .ok ((rankedCandidates env limit).map
        (fun e => ⟨"Unknown", "Unknown", e.1, some 0⟩))

/-! ### Claim C2 -/

theorem foldl_scanSlot_all_missing (env : RpcEnv) :
    ∀ (slots : List Nat) (acc : List (String × CandInfo)),
      (∀ s ∈ slots, env.getBlock s = none) →
      slots.foldl (scanSlot env) acc = acc := by
  intro slots
  induction slots with
  | nil => intro acc _; rfl
  | cons s t ih =>
      intro acc h
      have hs : env.getBlock s = none := h s (by simp)
      simp only [List.foldl_cons, scanSlot, hs]
      exact ih acc (fun x hx => h x (by simp [hx]))

/-- Trending-scan environment with one performance sample whose block is
unavailable. -/
def envC2 : RpcEnv :=
  { perfSamples := [⟨5⟩], getBlock := fun _ => none,
    getAccountInfo := fun _ => none, getMintInfo := fun _ => none }

/-- C2 counterexample: a scan whose performance-sample fetch returns a
non-empty list (a single slot, 5) and whose every fetched block is
unavailable nevertheless succeeds with an empty token list, instead of
failing with an upstream-data error as the claim states. -/
theorem trending_all_blocks_missing_counterexample :
    envC2.perfSamples ≠ [] ∧
    (envC2.perfSamples.take 5).map PerfSample.slot = [5] ∧
    envC2.getBlock 5 = none ∧
    get_trending_tokens envC2 10 = Except.ok [] :=
  ⟨by decide, rfl, rfl, rfl⟩

/-- C2 amended: when the performance-sample list is non-empty but every
fetched block is unavailable, `get_trending_tokens` returns the empty list
as a successful result (the upstream error is raised only when the
performance-sample list itself is empty). -/
theorem trending_all_blocks_missing_returns_empty (env : RpcEnv) (limit : Nat)
    (hne : env.perfSamples ≠ [])
    (hblocks : ∀ s ∈ (env.perfSamples.take 5).map PerfSample.slot,
      env.getBlock s = none) :
    get_trending_tokens env limit = Except.ok [] := by
  have hcand : candList env = [] :=
    foldl_scanSlot_all_missing env _ [] hblocks
  unfold get_trending_tokens
  cases hps : env.perfSamples with
  | nil => exact absurd hps hne
  | cons a t => simp [rankedCandidates, hcand, List.insertionSort]

/-- C2 witness: the amended theorem applied to the concrete environment. -/
theorem trending_all_blocks_missing_witness :
    get_trending_tokens envC2 10 = Except.ok [] :=
  trending_all_blocks_missing_returns_empty envC2 10 (by decide) (by decide)

/-! ### Claim C4: stability machinery for the Python stable sort -/

/-- Ordering realised by the ranked output: a precedes b when a has a
strictly larger participation count, or an equal count and an earlier
first-seen position (smaller value of f). -/
def rankRel {α : Type} (key f : α → Nat) (a b : α) : Prop :=
  key b < key a ∨ (key a = key b ∧ f a < f b)

theorem rankRel_le {α : Type} (key f : α → Nat) {a b : α}
    (h : rankRel key f a b) : key b ≤ key a := by
  rcases h with h | ⟨h, _⟩
  · exact Nat.le_of_lt h
  · exact Nat.le_of_eq h.symm

theorem orderedInsert_rankRel {α : Type} (key f : α → Nat) (x : α) :
    ∀ l : List α, l.Pairwise (rankRel key f) → (∀ y ∈ l, f x < f y) →
      (List.orderedInsert (fun a b => key b ≤ key a) x l).Pairwise (rankRel key f) := by
  intro l
  induction l with
  | nil =>
      intro _ _
      simp [List.orderedInsert, rankRel]
  | cons b t ih =>
      intro hl hx
      rw [List.pairwise_cons] at hl
      obtain ⟨hbt, ht⟩ := hl
      by_cases hkb : key b ≤ key x
      · rw [List.orderedInsert, if_pos hkb]
        refine List.Pairwise.cons ?_ (List.pairwise_cons.mpr ⟨hbt, ht⟩)
        intro z hz
        have hkz : key z ≤ key x := by
          rcases List.mem_cons.mp hz with rfl | hzt
          · exact hkb
          · exact le_trans (rankRel_le key f (hbt z hzt)) hkb
        rcases Nat.lt_or_ge (key z) (key x) with hlt | hge
        · exact Or.inl hlt
        · exact Or.inr ⟨Nat.le_antisymm hge hkz, hx z hz⟩
      · rw [List.orderedInsert, if_neg hkb]
        have hxb : key x < key b := Nat.gt_of_not_le hkb
        refine List.Pairwise.cons ?_
          (ih ht (fun y hy => hx y (List.mem_cons_of_mem b hy)))
        intro z hz
        rcases (List.mem_orderedInsert _).mp hz with rfl | hzt
        · exact Or.inl hxb
        · exact hbt z hzt

theorem insertionSort_rankRel {α : Type} (key f : α → Nat) :
    ∀ l : List α, l.Pairwise (fun a b => f a < f b) →
      (List.insertionSort (fun a b => key b ≤ key a) l).Pairwise (rankRel key f) := by
  intro l
  induction l with
  | nil => intro _; simp [List.insertionSort, List.Pairwise.nil]
  | cons x t ih =>
      intro hl
      rw [List.pairwise_cons] at hl
      rw [List.insertionSort]
      refine orderedInsert_rankRel key f x _ (ih hl.2) ?_
      intro y hy
      exact hl.1 y ((List.mem_insertionSort _).mp hy)

theorem indexOf_get_of_nodup {α : Type} [DecidableEq α] :
    ∀ l : List α, l.Nodup → ∀ i : Fin l.length, l.indexOf (l.get i) = i.val := by
  intro l
  induction l with
  | nil => intro _ i; exact absurd i.2 (by simp)
  | cons x t ih =>
      intro hnd i
      rw [List.nodup_cons] at hnd
      match i with
      | ⟨0, _⟩ => simp
      | ⟨j + 1, hj⟩ =>
          have hmem : t.get ⟨j, Nat.lt_of_succ_lt_succ hj⟩ ∈ t :=
            List.get_mem t _ _
          have hne : x ≠ t.get ⟨j, Nat.lt_of_succ_lt_succ hj⟩ :=
            fun he => hnd.1 (he ▸ hmem)
          rw [List.get_cons_succ, List.indexOf_cons_ne _ hne,
            ih hnd.2 ⟨j, Nat.lt_of_succ_lt_succ hj⟩]

theorem pairwise_indexOf_of_nodup {α : Type} [DecidableEq α] (l : List α)
    (h : l.Nodup) : l.Pairwise (fun a b => l.indexOf a < l.indexOf b) := by
  rw [List.pairwise_iff_get]
  intro i j hij
  rw [indexOf_get_of_nodup l h i, indexOf_get_of_nodup l h j]
  exact hij

theorem keys_bumpCandidate (addr : String) (meta : TokenMeta) :
    ∀ l : List (String × CandInfo),
      (bumpCandidate l addr meta).map Prod.fst =
        if addr ∈ l.map Prod.fst then l.map Prod.fst
        else l.map Prod.fst ++ [addr] := by
  intro l
  induction l with
  | nil => simp [bumpCandidate]
  | cons p t ih =>
      obtain ⟨a, ci⟩ := p
      by_cases h : a = addr
      · subst h
        simp [bumpCandidate]
      · have h' : ¬addr = a := fun he => h he.symm
        simp only [bumpCandidate, if_neg h, List.map_cons, List.mem_cons, h',
          false_or, ih]
        by_cases hm : addr ∈ t.map Prod.fst
        · simp [hm]
        · simp [hm]

theorem nodupKeys_bumpCandidate (addr : String) (meta : TokenMeta)
    (l : List (String × CandInfo)) (h : (l.map Prod.fst).Nodup) :
    ((bumpCandidate l addr meta).map Prod.fst).Nodup := by
  rw [keys_bumpCandidate]
  by_cases hm : addr ∈ l.map Prod.fst
  · simpa [hm] using h
  · simp [hm, List.nodup_append, h]

theorem foldl_preserve {σ β : Type} (P : σ → Prop) (g : σ → β → σ)
    (hg : ∀ s b, P s → P (g s b)) :
    ∀ (l : List β) (s : σ), P s → P (l.foldl g s) := by
  intro l
  induction l with
  | nil => intro s hs; exact hs
  | cons b t ih => intro s hs; exact ih _ (hg s b hs)

/-- Every step of the scan keeps the keys of the candidate dict free of
duplicates (it is a dict, keyed by address). -/
theorem nodupKeys_candList (env : RpcEnv) :
    ((candList env).map Prod.fst).Nodup := by
  have hacct : ∀ (acc : List (String × CandInfo)) (account : String),
      (acc.map Prod.fst).Nodup →
      (((fun acc account =>
          match get_token_metadata env account with
          | none => acc
          | some meta => bumpCandidate acc account meta) acc account).map
        Prod.fst).Nodup := by
    intro acc account h
    cases hti : get_token_metadata env account with
    | none => simpa [hti] using h
    | some meta => simpa [hti] using nodupKeys_bumpCandidate account meta acc h
  have hscanAccounts : ∀ (keys : List String) (acc : List (String × CandInfo)),
      (acc.map Prod.fst).Nodup → ((scanAccounts env acc keys).map Prod.fst).Nodup :=
    fun keys acc h =>
      foldl_preserve (fun s => (s.map Prod.fst).Nodup) _ hacct keys acc h
  have hscanTx : ∀ (acc : List (String × CandInfo)) (tx : BlockTx),
      (acc.map Prod.fst).Nodup → ((scanTx env acc tx).map Prod.fst).Nodup := by
    intro acc tx h
    unfold scanTx
    by_cases hc : TOKEN_PROGRAM_ID ∈ tx.message.account_keys
    · simpa [hc] using hscanAccounts tx.message.account_keys acc h
    · simpa [hc] using h
  have hscanSlot : ∀ (acc : List (String × CandInfo)) (slot : Nat),
      (acc.map Prod.fst).Nodup → ((scanSlot env acc slot).map Prod.fst).Nodup := by
    intro acc slot h
    unfold scanSlot
    cases hb : env.getBlock slot with
    | none => simpa using h
    | some block =>
        exact foldl_preserve (fun s => (s.map Prod.fst).Nodup) _ hscanTx
          block.transactions acc h
  exact foldl_preserve (fun s => (s.map Prod.fst).Nodup) _ hscanSlot
    ((env.perfSamples.take 5).map PerfSample.slot) [] (by simp)

/-- C4: every successful trending response holds at most `limit` tokens;
the ranked candidate list it renders is sorted by participation count in
descending order, and entries with equal counts appear in their first-seen
order within the scan (position in the candidate dict). -/
theorem trending_limit_sorted_stable (env : RpcEnv) (limit : Nat)
    (toks : List TokenX) (h : get_trending_tokens env limit = Except.ok toks) :
    toks.length ≤ limit ∧
    (rankedCandidates env limit).Pairwise (fun a b => b.2.count ≤ a.2.count) ∧
    (rankedCandidates env limit).Pairwise (fun a b =>
      a.2.count = b.2.count →
        ((candList env).map Prod.fst).indexOf a.1 <
          ((candList env).map Prod.fst).indexOf b.1) := by
  have htoks : toks = (rankedCandidates env limit).map
      (fun e => (⟨"Unknown", "Unknown", e.1, some 0⟩ : TokenX)) := by
    unfold get_trending_tokens at h
    cases hps : env.perfSamples with
    | nil => rw [hps] at h; exact absurd h (by simp)
    | cons a t =>
        rw [hps] at h
        injection h with h'
        exact h'.symm
  have hstrong : (rankedCandidates env limit).Pairwise
      (rankRel (fun e => e.2.count)
        (fun e => ((candList env).map Prod.fst).indexOf e.1)) := by
    have hidxkeys := pairwise_indexOf_of_nodup ((candList env).map Prod.fst)
      (nodupKeys_candList env)
    rw [List.pairwise_map] at hidxkeys
    have hsorted := insertionSort_rankRel (fun e => e.2.count)
      (fun e => ((candList env).map Prod.fst).indexOf e.1) (candList env) hidxkeys
    exact List.Pairwise.sublist (List.take_sublist _ _) hsorted
  refine ⟨?_, ?_, ?_⟩
  · rw [htoks, List.length_map]
    unfold rankedCandidates
    rw [List.length_take]
    exact Nat.min_le_left _ _
  · exact hstrong.imp (fun hab => rankRel_le _ _ hab)
  · refine hstrong.imp ?_
    intro a b hab heq
    rcases hab with hlt | ⟨_, hidx⟩
    · exact absurd hlt (by simp only at hlt ⊢; omega)
    · exact hidx

/-- Trending environment with two candidate tokens: "A" seen once and "B"
seen twice across the block of slot 1. -/
def envC4 : RpcEnv :=
  { perfSamples := [⟨1⟩]
    getBlock := fun s =>
      if s = 1 then
        some ⟨[⟨⟨[TOKEN_PROGRAM_ID, "A", "B"]⟩⟩, ⟨⟨[TOKEN_PROGRAM_ID, "B"]⟩⟩]⟩
      else none
    getAccountInfo := fun a => if a = "A" ∨ a = "B" then some () else none
    getMintInfo := fun a => if a = "A" ∨ a = "B" then some ⟨100, 9⟩ else none }

/-- C4 witness: the theorem applied to the concrete two-candidate scan. -/
theorem trending_limit_sorted_stable_witness :
    ([⟨"Unknown", "Unknown", "B", some 0⟩,
      ⟨"Unknown", "Unknown", "A", some 0⟩] : List TokenX).length ≤ 10 ∧
    (rankedCandidates envC4 10).Pairwise (fun a b => b.2.count ≤ a.2.count) ∧
    (rankedCandidates envC4 10).Pairwise (fun a b =>
      a.2.count = b.2.count →
        ((candList envC4).map Prod.fst).indexOf a.1 <
          ((candList envC4).map Prod.fst).indexOf b.1) :=
  trending_limit_sorted_stable envC4 10 _ rfl

/-! ### Provisioning flow (tokens.py, request_airdrop / create_custom_token) -/

/-- Observable RPC side effects of the provisioning flow, in call order. -/
inductive Effect where
  | getBalance (addr : String)
  | requestAirdrop (addr : String) (lamports : Nat)
  | confirmTx (sig : String)
  | sleep (seconds : Nat)
  | createMint
deriving DecidableEq, Repr

/-- Environment of remote responses for one provisioning run: the pubkey of
the mint-authority keypair generated from `os.urandom(32)`, balance reads,
the airdrop response value (`none` when no transaction signature is
returned), the truthiness of the second `confirm_transaction` call, and the
outcome of `Token.create_mint` (`none` when it raises). -/
structure AirdropEnv where
  mintAuthority : String
  getBalance : String → Option Nat
  requestAirdropValue : String → Nat → Option String
  confirmTransaction : String → Bool
  createMint : Int → Option String

/-- Helper `request_airdrop`: when the response holds no signature the
inner HTTPException is caught by the except block and re-raised as
`HTTPException(500, "Failed to request airdrop: ...")`; otherwise the
signature is awaited for confirmation and returned.  The first component
lists the RPC calls made. -/
def request_airdrop (env : AirdropEnv) (wallet_address : String)
    (lamports : Nat) : List Effect × Except Err String :=
  match env.requestAirdropValue wallet_address lamports with
  | none =>
      ([.requestAirdrop wallet_address lamports],
        .error (.http 500
          "Failed to request airdrop: Airdrop request failed - no transaction signature returned"))
  | some sig =>
      ([.requestAirdrop wallet_address lamports, .confirmTx sig], .ok sig)

/-- POST /tokens/custom: checks the authority balance, requests an airdrop
of 1000000000 lamports, sleeps 30 seconds, confirms the airdrop, re-reads
the balance, then creates the mint.  Any raised HTTPException is re-raised
by the outer except block as `HTTPException(500, str(e))`. -/
def create_custom_token (env : AirdropEnv) (token_data : CustomToken) :
    List Effect × Except Err TokenX :=
  let authority := env.mintAuthority
  let pre : List Effect := [.getBalance authority]
  match request_airdrop env authority 1000000000 with
  | (effs, .error e) => (pre ++ effs, .error (wrapHttp e))
  | (effs, .ok sig) =>
      let effs2 := pre ++ effs ++ [.sleep 30, .confirmTx sig]
      if env.confirmTransaction sig then
        let effs3 := effs2 ++ [.getBalance authority]
        match env.createMint token_data.decimals with
        | none =>
            (effs3 ++ [.createMint],
              .error (wrapHttp (.http 500 "Error creating custom token")))
        | some mintAddr =>
            (effs3 ++ [.createMint],
              .ok ⟨token_data.symbol, token_data.name, mintAddr, none⟩)
      else
        (effs2,
          .error (wrapHttp (.http 500 "Failed to confirm airdrop transaction")))

/-! ### Claim C5 -/

/-- C5: when the airdrop request returns no transaction signature, the
provisioning flow fails with the provisioning error raised by
`request_airdrop`, and `Token.create_mint` is never called. -/
theorem provisioning_no_signature_fails_without_mint (env : AirdropEnv)
    (td : CustomToken)
    (h : env.requestAirdropValue env.mintAuthority 1000000000 = none) :
    (create_custom_token env td).2 =
      Except.error (.http 500
        "Failed to request airdrop: Airdrop request failed - no transaction signature returned") ∧
    Effect.createMint ∉ (create_custom_token env td).1 := by
  unfold create_custom_token request_airdrop
  dsimp only
  rw [h]
  refine ⟨rfl, ?_⟩
  simp

/-- Provisioning environment whose airdrop request returns no signature. -/
def envC5 : AirdropEnv :=
  { mintAuthority := "AUTH"
    getBalance := fun _ => some 0
    requestAirdropValue := fun _ _ => none
    confirmTransaction := fun _ => true
    createMint := fun _ => some "MINT" }

/-- C5 witness: the theorem applied to the concrete environment. -/
theorem provisioning_no_signature_witness :
    (create_custom_token envC5 ⟨"n", "s", 9, 1000⟩).2 =
      Except.error (.http 500
        "Failed to request airdrop: Airdrop request failed - no transaction signature returned") ∧
    Effect.createMint ∉ (create_custom_token envC5 ⟨"n", "s", 9, 1000⟩).1 :=
  provisioning_no_signature_fails_without_mint envC5 ⟨"n", "s", 9, 1000⟩ rfl

/-! ### History reconstructor (wallets.py, get_wallet_transactions) -/

/-- Data of the first instruction (`instructions[0].data.amount`). -/
structure TxInstrData where
  amount : Nat
deriving DecidableEq, Repr

/-- One instruction of a fetched transaction. -/
structure TxInstruction where
  data : TxInstrData
deriving DecidableEq, Repr

/-- Message of a fetched transaction (`tx.transaction.message`): referenced
account keys, instruction list, and the destination test that the source
invokes as `message.is_to_wallet(public_key)` on the external ledger
object, modelled as an abstract predicate of that message. -/
structure TxMessage where
  account_keys : List String
  instructions : List TxInstruction
  is_to_wallet : String → Bool

/-- A fetched transaction (`client.get_transaction(sig).value`). -/
structure TxData where
  message : TxMessage

/-- One entry of `get_signatures_for_address(...).value`. -/
structure SigInfo where
  signature : String
  block_time : Option Int
  confirmed : Bool
deriving DecidableEq, Repr

/-- The `Transaction` pydantic response model (models). -/
structure Transaction where
  signature : String
  timestamp : Int
  type : String
  amount : ℚ
  token_symbol : String
  from_address : String
  to_address : String
  status : String
deriving DecidableEq, Repr

/-- Environment for GET /wallets/{pk}/transactions: the wallet store, the
signature listing (address, limit, before-cursor) and per-signature
transaction lookup (`none` when the transaction is unavailable). -/
structure HistEnv where
  store : Store
  getSignatures : String → Nat → Option String → List SigInfo
  getTransaction : String → Option TxData

/-- Per-signature body of the loop: an unavailable transaction yields no
record (skipped); a resolvable one is classified and rendered, where a
missing first instruction, a null block time, or fewer than two account
keys raises (IndexError or TypeError), aborting the whole request. -/
def buildRecord (env : HistEnv) (public_key : String) (si : SigInfo) :
    Except Err (Option Transaction) :=
  match env.getTransaction si.signature with
  | none => .ok none
  | some tx =>
      let tx_type := if tx.message.is_to_wallet public_key then "receive" else "send"
      match tx.message.instructions with
      | [] => .error (.http 500 "list index out of range")
      | instr0 :: _ =>
          let amount : ℚ := (instr0.data.amount : ℚ) / 1000000000
          match si.block_time with
          | none => .error (.http 500 "fromtimestamp argument must not be None")
          | some bt =>
              match tx.message.account_keys with
              | k0 :: k1 :: _ =>
                  .ok (some ⟨si.signature, bt, tx_type, amount, "SOL", k0, k1,
                    if si.confirmed then "confirmed" else "pending"⟩)
              | _ => .error (.http 500 "list index out of range")

/-- The signature loop of `get_wallet_transactions`. -/
def buildRecords (env : HistEnv) (public_key : String) :
    List SigInfo → Except Err (List Transaction)
  | [] => .ok []
  | si :: rest =>
      match buildRecord env public_key si with
      | .error e => .error e
      | .ok none => buildRecords env public_key rest
      | .ok (some t) =>
          match buildRecords env public_key rest with
          | .error e => .error e
          | .ok ts => .ok (t :: ts)

/-- GET /wallets/{public_key}/transactions: 404 for an unknown wallet,
otherwise the signature list is fetched and each signature resolved into a
record; any exception inside the try block is re-raised as
`HTTPException(500, str(e))`. -/
def get_wallet_transactions (env : HistEnv) (public_key : String)
    (limit : Nat) (before : Option String) : Except Err (List Transaction) :=
  match storeLookup env.store public_key with
  | none => .error (.http 404 "Wallet not found")
  | some _ =>
      match buildRecords env public_key (env.getSignatures public_key limit before) with
      | .error e => .error (wrapHttp e)
      | .ok ts => .ok ts

/-- The direction test applied by the endpoint to the transaction fetched
for a signature: true when the queried wallet is the destination of the
transfer, false when it is not (or when no transaction resolves). -/
def isDest (env : HistEnv) (public_key sig : String) : Bool :=
  match env.getTransaction sig with
  | none => false
  | some tx => tx.message.is_to_wallet public_key

/-! ### History lemmas -/

theorem buildRecord_ok_some (env : HistEnv) (pk : String) (si : SigInfo)
    (t : Transaction) (h : buildRecord env pk si = .ok (some t)) :
    t.signature = si.signature ∧
    ∃ tx, env.getTransaction si.signature = some tx ∧
      t.type = (if tx.message.is_to_wallet pk then "receive" else "send") := by
  unfold buildRecord at h
  cases htx : env.getTransaction si.signature with
  | none => rw [htx] at h; simp at h
  | some tx =>
      rw [htx] at h
      dsimp only at h
      cases hin : tx.message.instructions with
      | nil => rw [hin] at h; simp at h
      | cons i0 irest =>
          rw [hin] at h
          cases hbt : si.block_time with
          | none => rw [hbt] at h; simp at h
          | some bt =>
              rw [hbt] at h
              cases hak : tx.message.account_keys with
              | nil => rw [hak] at h; simp at h
              | cons k0 krest =>
                  cases krest with
                  | nil => rw [hak] at h; simp at h
                  | cons k1 krest2 =>
                      rw [hak] at h
                      dsimp only at h
                      injection h with h1
                      injection h1 with h2
                      subst h2
                      exact ⟨rfl, tx, rfl, rfl⟩

theorem buildRecords_map_sig_sublist (env : HistEnv) (pk : String) :
    ∀ (sigs : List SigInfo) (txs : List Transaction),
      buildRecords env pk sigs = .ok txs →
      (txs.map (fun t => t.signature)).Sublist
        (sigs.map (fun si => si.signature)) := by
  intro sigs
  induction sigs with
  | nil =>
      intro txs h
      unfold buildRecords at h
      injection h with h'
      rw [← h']
      simp
  | cons si rest ih =>
      intro txs h
      unfold buildRecords at h
      cases hbr : buildRecord env pk si with
      | error e => rw [hbr] at h; simp at h
      | ok o =>
          rw [hbr] at h
          cases o with
          | none =>
              dsimp only at h
              exact List.Sublist.cons _ (ih txs h)
          | some t =>
              dsimp only at h
              cases hrest : buildRecords env pk rest with
              | error e => rw [hrest] at h; simp at h
              | ok ts =>
                  rw [hrest] at h
                  injection h with h'
                  rw [← h']
                  have hsig := (buildRecord_ok_some env pk si t hbr).1
                  simpa [hsig] using List.Sublist.cons₂ si.signature (ih ts hrest)

theorem get_wallet_transactions_ok (env : HistEnv) (pk : String)
    (limit : Nat) (before : Option String) (txs : List Transaction)
    (h : get_wallet_transactions env pk limit before = .ok txs) :
    buildRecords env pk (env.getSignatures pk limit before) = .ok txs := by
  unfold get_wallet_transactions at h
  cases hw : storeLookup env.store pk with
  | none => rw [hw] at h; simp at h
  | some w =>
      rw [hw] at h
      dsimp only at h
      cases hbr : buildRecords env pk (env.getSignatures pk limit before) with
      | error e => rw [hbr] at h; simp [wrapHttp] at h
      | ok ts =>
          rw [hbr] at h
          injection h with h'
          rw [h']

theorem getLast?_map_of_getLast? {α β : Type} (f : α → β) :
    ∀ (l : List α) (a : α), l.getLast? = some a →
      (l.map f).getLast? = some (f a) := by
  intro l
  induction l with
  | nil => intro a h; simp at h
  | cons x t ih =>
      intro a h
      cases t with
      | nil =>
          simp only [List.getLast?_singleton, Option.some.injEq] at h
          simp [h]
      | cons y t2 =>
          rw [List.getLast?_cons_cons] at h
          rw [List.map_cons, List.map_cons, List.getLast?_cons_cons]
          rw [← List.map_cons]
          exact ih a h

theorem getLast?_mem {α : Type} :
    ∀ (l : List α) (a : α), l.getLast? = some a → a ∈ l := by
  intro l
  induction l with
  | nil => intro a h; simp at h
  | cons x t ih =>
      intro a h
      cases t with
      | nil =>
          simp only [List.getLast?_singleton, Option.some.injEq] at h
          simp [h]
      | cons y t2 =>
          rw [List.getLast?_cons_cons] at h
          exact List.mem_cons_of_mem x (ih a h)

theorem pairwise_last_max {α : Type} (r : α → α → Prop) :
    ∀ (l : List α) (c : α), l.Pairwise r → l.getLast? = some c →
      ∀ x ∈ l, x = c ∨ r x c := by
  intro l
  induction l with
  | nil => intro c _ _ x hx; exact absurd hx (by simp)
  | cons a t ih =>
      intro c hp hl x hx
      rw [List.pairwise_cons] at hp
      cases t with
      | nil =>
          simp only [List.getLast?_singleton, Option.some.injEq] at hl
          rcases List.mem_singleton.mp hx with rfl
          exact Or.inl hl
      | cons y t2 =>
          rw [List.getLast?_cons_cons] at hl
          rcases List.mem_cons.mp hx with rfl | hxt
          · exact Or.inr (hp.1 c (getLast?_mem _ c hl))
          · exact ih c hp.2 hl x hxt

theorem buildRecords_mem (env : HistEnv) (pk : String) :
    ∀ (sigs : List SigInfo) (txs : List Transaction),
      buildRecords env pk sigs = .ok txs →
      ∀ t ∈ txs, ∃ si ∈ sigs, buildRecord env pk si = .ok (some t) := by
  intro sigs
  induction sigs with
  | nil =>
      intro txs h t ht
      unfold buildRecords at h
      injection h with h'
      rw [← h'] at ht
      exact absurd ht (by simp)
  | cons si rest ih =>
      intro txs h t ht
      unfold buildRecords at h
      cases hbr : buildRecord env pk si with
      | error e => rw [hbr] at h; simp at h
      | ok o =>
          rw [hbr] at h
          cases o with
          | none =>
              dsimp only at h
              obtain ⟨si', hsi', hbr'⟩ := ih txs h t ht
              exact ⟨si', List.mem_cons_of_mem si hsi', hbr'⟩
          | some t0 =>
              dsimp only at h
              cases hrest : buildRecords env pk rest with
              | error e => rw [hrest] at h; simp at h
              | ok ts =>
                  rw [hrest] at h
                  injection h with h'
                  rw [← h'] at ht
                  rcases List.mem_cons.mp ht with rfl | hts
                  · exact ⟨si, List.mem_cons_self si rest, hbr⟩
                  · obtain ⟨si', hsi', hbr'⟩ := ih ts hrest t hts
                    exact ⟨si', List.mem_cons_of_mem si hsi', hbr'⟩

theorem buildRecord_wf_some (env : HistEnv) (pk : String) (si : SigInfo)
    (tx : TxData) (htx : env.getTransaction si.signature = some tx)
    (h1 : tx.message.instructions ≠ []) (h2 : si.block_time.isSome = true)
    (h3 : 2 ≤ tx.message.account_keys.length) :
    ∃ t, buildRecord env pk si = .ok (some t) ∧ t.signature = si.signature := by
  unfold buildRecord
  rw [htx]
  dsimp only
  cases hin : tx.message.instructions with
  | nil => exact absurd hin h1
  | cons i0 irest =>
      cases hbt : si.block_time with
      | none => rw [hbt] at h2; simp at h2
      | some bt =>
          cases hak : tx.message.account_keys with
          | nil => rw [hak] at h3; simp at h3
          | cons k0 krest =>
              cases krest with
              | nil => rw [hak] at h3; simp at h3
              | cons k1 krest2 => exact ⟨_, rfl, rfl⟩

theorem buildRecords_wf (env : HistEnv) (pk : String) :
    ∀ sigs : List SigInfo,
      (∀ si ∈ sigs, ∀ tx, env.getTransaction si.signature = some tx →
        tx.message.instructions ≠ [] ∧ si.block_time.isSome = true ∧
        2 ≤ tx.message.account_keys.length) →
      ∃ txs, buildRecords env pk sigs = .ok txs ∧
        txs.map (fun t => t.signature) =
          (sigs.filter (fun si => (env.getTransaction si.signature).isSome)).map
            (fun si => si.signature) := by
  intro sigs
  induction sigs with
  | nil => intro _; exact ⟨[], rfl, rfl⟩
  | cons si rest ih =>
      intro hwf
      obtain ⟨txs, hok, hmap⟩ :=
        ih (fun s hs => hwf s (List.mem_cons_of_mem si hs))
      cases htx : env.getTransaction si.signature with
      | none =>
          refine ⟨txs, ?_, ?_⟩
          · unfold buildRecords buildRecord
            rw [htx]
            dsimp only
            exact hok
          · rw [List.filter_cons]
            simp only [htx, Option.isSome_none, Bool.false_eq_true, if_false]
            exact hmap
      | some tx =>
          obtain ⟨h1, h2, h3⟩ :=
            hwf si (List.mem_cons_self si rest) tx htx
          obtain ⟨t, hbr, hsig⟩ := buildRecord_wf_some env pk si tx htx h1 h2 h3
          refine ⟨t :: txs, ?_, ?_⟩
          · unfold buildRecords
            rw [hbr]
            dsimp only
            rw [hok]
          · rw [List.filter_cons]
            simp only [htx, Option.isSome_some, if_true, List.map_cons]
            rw [hmap, hsig]

/-! ### Claim C6 -/

/-- C6: (a) when the gateway honours the requested page size, the endpoint
returns at most `limit` records; (b) when the first-page signatures are
listed newest-first under some rank and the gateway returns only
signatures strictly older than the supplied cursor, a second page whose
cursor is the last record of the first page shares no signature with the
first page. -/
theorem hist_limit_and_cursor :
    (∀ (env : HistEnv) (pk : String) (limit : Nat) (before : Option String)
        (txs : List Transaction),
        (env.getSignatures pk limit before).length ≤ limit →
        get_wallet_transactions env pk limit before = Except.ok txs →
        txs.length ≤ limit) ∧
    (∀ (env : HistEnv) (pk : String) (limit : Nat) (rank : String → Nat)
        (txs1 txs2 : List Transaction) (tlast : Transaction),
        get_wallet_transactions env pk limit none = Except.ok txs1 →
        txs1.getLast? = some tlast →
        (env.getSignatures pk limit none).Pairwise
          (fun a b => rank a.signature < rank b.signature) →
        (∀ si ∈ env.getSignatures pk limit (some tlast.signature),
          rank tlast.signature < rank si.signature) →
        get_wallet_transactions env pk limit (some tlast.signature) =
          Except.ok txs2 →
        List.Disjoint (txs2.map (fun t => t.signature))
          (txs1.map (fun t => t.signature))) := by
  constructor
  · intro env pk limit before txs hlim h
    have hsub := buildRecords_map_sig_sublist env pk _ txs
      (get_wallet_transactions_ok env pk limit before txs h)
    have hlen := hsub.length_le
    simp only [List.length_map] at hlen
    exact le_trans hlen hlim
  · intro env pk limit rank txs1 txs2 tlast h1 hlast hmono hbefore h2
    have hsub1 := buildRecords_map_sig_sublist env pk _ txs1
      (get_wallet_transactions_ok env pk limit none txs1 h1)
    have hsub2 := buildRecords_map_sig_sublist env pk _ txs2
      (get_wallet_transactions_ok env pk limit (some tlast.signature) txs2 h2)
    have hmono' : ((env.getSignatures pk limit none).map
        (fun si => si.signature)).Pairwise (fun a b => rank a < rank b) := by
      rw [List.pairwise_map]
      exact hmono
    have hp1 : (txs1.map (fun t => t.signature)).Pairwise
        (fun a b => rank a < rank b) := List.Pairwise.sublist hsub1 hmono'
    have hlast' : (txs1.map (fun t => t.signature)).getLast? =
        some tlast.signature := getLast?_map_of_getLast? _ txs1 tlast hlast
    intro s hs2 hs1
    have hs2' : s ∈ (env.getSignatures pk limit (some tlast.signature)).map
        (fun si => si.signature) := hsub2.subset hs2
    obtain ⟨si, hsi, rfl⟩ := List.mem_map.mp hs2'
    have hgt : rank tlast.signature < rank si.signature := hbefore si hsi
    have hle : rank si.signature ≤ rank tlast.signature := by
      rcases pairwise_last_max _ (txs1.map (fun t => t.signature))
        tlast.signature hp1 hlast' _ hs1 with heq | hlt
      · exact le_of_eq (by rw [heq])
      · exact Nat.le_of_lt hlt
    omega

/-- Ledger data shared by the concrete history environments: a transfer of
1000000000 lamports from K0 to K1 whose destination test accepts wallet
"A". -/
def txDataC6 : TxData := ⟨⟨["K0", "K1"], [⟨⟨1000000000⟩⟩], fun a => a == "A"⟩⟩

/-- History environment for the C6 witness: first page [s1, s2], second
page (before "s2") [s3], every signature resolvable. -/
def envC6 : HistEnv :=
  { store := [("A", ⟨"A", "sk", "w"⟩)]
    getSignatures := fun _ _ before =>
      match before with
      | none => [⟨"s1", some 10, true⟩, ⟨"s2", some 9, true⟩]
      | some c => if c = "s2" then [⟨"s3", some 8, true⟩] else []
    getTransaction := fun _ => some txDataC6 }

/-- Newest-first rank of the C6 ledger. -/
def rankC6 : String → Nat :=
  fun s => if s = "s1" then 0 else if s = "s2" then 1 else 2

/-- First record of the C6 first page. -/
def txW1 : Transaction :=
  ⟨"s1", 10, "receive", (1000000000 : ℚ) / 1000000000, "SOL", "K0", "K1",
    "confirmed"⟩

/-- Second record of the C6 first page. -/
def txW2 : Transaction :=
  ⟨"s2", 9, "receive", (1000000000 : ℚ) / 1000000000, "SOL", "K0", "K1",
    "confirmed"⟩

/-- C6 witness: both parts of the theorem applied to the concrete
environment; the second page shares no signature with the first. -/
theorem hist_limit_and_cursor_witness :
    ([txW1, txW2] : List Transaction).length ≤ 2 ∧
    List.Disjoint (["s3"] : List String) ["s1", "s2"] := by
  constructor
  · exact hist_limit_and_cursor.1 envC6 "A" 2 none [txW1, txW2] (by decide) rfl
  · exact hist_limit_and_cursor.2 envC6 "A" 2 rankC6 [txW1, txW2]
      [⟨"s3", 8, "receive", (1000000000 : ℚ) / 1000000000, "SOL", "K0", "K1",
        "confirmed"⟩] txW2 rfl rfl
      (by
        have he : envC6.getSignatures "A" 2 none =
            [⟨"s1", some 10, true⟩, ⟨"s2", some 9, true⟩] := rfl
        rw [he]
        refine List.Pairwise.cons ?_ (List.pairwise_singleton _ _)
        intro b hb
        rcases List.mem_singleton.mp hb with rfl
        decide)
      (by intro si hsi
          rcases List.mem_singleton.mp hsi with rfl
          decide)
      rfl

/-! ### Claim C7 -/

/-- C7: every record of a successful transaction-history response carries
exactly one direction, and it is "receive" precisely when the queried
wallet is the destination of the fetched transfer. -/
theorem direction_exactly_one (env : HistEnv) (pk : String) (limit : Nat)
    (before : Option String) (txs : List Transaction)
    (h : get_wallet_transactions env pk limit before = Except.ok txs) :
    ∀ t ∈ txs, (t.type = "receive" ∨ t.type = "send") ∧
      ¬(t.type = "receive" ∧ t.type = "send") ∧
      (t.type = "receive" ↔ isDest env pk t.signature = true) := by
  intro t ht
  obtain ⟨si, hsi, hbr⟩ := buildRecords_mem env pk _ txs
    (get_wallet_transactions_ok env pk limit before txs h) t ht
  obtain ⟨hsig, tx, htx, htype⟩ := buildRecord_ok_some env pk si t hbr
  have hdst : isDest env pk t.signature = tx.message.is_to_wallet pk := by
    rw [hsig]
    unfold isDest
    rw [htx]
  cases hb : tx.message.is_to_wallet pk with
  | true =>
      rw [hb] at htype hdst
      simp only [if_true] at htype
      refine ⟨Or.inl htype, ?_, ?_⟩
      · rintro ⟨hr, hs⟩
        rw [htype] at hs
        exact absurd hs (by decide)
      · exact ⟨fun _ => hdst, fun _ => htype⟩
  | false =>
      rw [hb] at htype hdst
      simp only [Bool.false_eq_true, if_false] at htype
      refine ⟨Or.inr htype, ?_, ?_⟩
      · rintro ⟨hr, hs⟩
        rw [htype] at hr
        exact absurd hr (by decide)
      · constructor
        · intro hr
          rw [htype] at hr
          exact absurd hr (by decide)
        · intro hd
          rw [hdst] at hd
          exact absurd hd (by decide)

/-- Receiving transaction data for the C7 witness. -/
def txDataC7r : TxData := ⟨⟨["K0", "A"], [⟨⟨2000000000⟩⟩], fun a => a == "A"⟩⟩

/-- Sending transaction data for the C7 witness. -/
def txDataC7s : TxData := ⟨⟨["A", "K1"], [⟨⟨2000000000⟩⟩], fun _ => false⟩⟩

/-- History environment for the C7 witness: one incoming and one outgoing
transfer. -/
def envC7 : HistEnv :=
  { store := [("A", ⟨"A", "sk", "w"⟩)]
    getSignatures := fun _ _ _ => [⟨"t1", some 5, true⟩, ⟨"t2", some 4, false⟩]
    getTransaction := fun s =>
      if s = "t1" then some txDataC7r else some txDataC7s }

/-- Record produced for signature t1 in the C7 environment. -/
def txW7 : Transaction :=
  ⟨"t1", 5, "receive", (2000000000 : ℚ) / 1000000000, "SOL", "K0", "A",
    "confirmed"⟩

/-- Record produced for signature t2 in the C7 environment. -/
def txW7s : Transaction :=
  ⟨"t2", 4, "send", (2000000000 : ℚ) / 1000000000, "SOL", "A", "K1",
    "pending"⟩

/-- C7 witness: the theorem applied to the incoming record of the concrete
environment. -/
theorem direction_exactly_one_witness :
    (txW7.type = "receive" ∨ txW7.type = "send") ∧
    ¬(txW7.type = "receive" ∧ txW7.type = "send") ∧
    (txW7.type = "receive" ↔ isDest envC7 "A" txW7.signature = true) :=
  direction_exactly_one envC7 "A" 10 none [txW7, txW7s] rfl txW7
    (List.mem_cons_self txW7 [txW7s])

/-! ### Claim C9 -/

/-- C9: with wallet known to the store and every resolvable transaction
well formed, a request whose signature fetch yields three signatures of
which exactly two resolve produces exactly the two corresponding records,
in the order the ledger returned the signatures. -/
theorem hist_skips_unresolvable (env : HistEnv) (pk : String)
    (hw : (storeLookup env.store pk).isSome = true)
    (_hlen : (env.getSignatures pk 2 none).length = 3)
    (hres : ((env.getSignatures pk 2 none).filter
      (fun si => (env.getTransaction si.signature).isSome)).length = 2)
    (hwf : ∀ si ∈ env.getSignatures pk 2 none, ∀ tx,
      env.getTransaction si.signature = some tx →
      tx.message.instructions ≠ [] ∧ si.block_time.isSome = true ∧
      2 ≤ tx.message.account_keys.length) :
    (get_wallet_transactions env pk 2 none).map
        (fun l => l.map (fun t => t.signature)) =
      Except.ok (((env.getSignatures pk 2 none).filter
        (fun si => (env.getTransaction si.signature).isSome)).map
          (fun si => si.signature)) ∧
    (get_wallet_transactions env pk 2 none).map (fun l => l.length) =
      Except.ok 2 := by
  obtain ⟨txs, hok, hmap⟩ := buildRecords_wf env pk _ hwf
  have hget : get_wallet_transactions env pk 2 none = .ok txs := by
    unfold get_wallet_transactions
    cases hwl : storeLookup env.store pk with
    | none => rw [hwl] at hw; simp at hw
    | some w =>
        dsimp only
        rw [hok]
  constructor
  · rw [hget]
    dsimp only [Except.map]
    rw [hmap]
  · rw [hget]
    dsimp only [Except.map]
    have hlen2 := congrArg List.length hmap
    simp only [List.length_map] at hlen2
    rw [hlen2, hres]

/-- Transaction data for the C9 witness. -/
def txDataC9 : TxData := ⟨⟨["K0", "K1"], [⟨⟨500000000⟩⟩], fun _ => false⟩⟩

/-- History environment for the C9 witness: three signatures, the middle
one unresolvable. -/
def envC9 : HistEnv :=
  { store := [("A", ⟨"A", "sk", "w"⟩)]
    getSignatures := fun _ _ _ =>
      [⟨"u1", some 3, true⟩, ⟨"u2", some 2, true⟩, ⟨"u3", some 1, true⟩]
    getTransaction := fun s => if s = "u2" then none else some txDataC9 }

/-- C9 witness: the theorem applied to the concrete environment gives
exactly two records, for u1 and u3, in ledger order. -/
theorem hist_skips_unresolvable_witness :
    (get_wallet_transactions envC9 "A" 2 none).map
        (fun l => l.map (fun t => t.signature)) =
      Except.ok ["u1", "u3"] ∧
    (get_wallet_transactions envC9 "A" 2 none).map (fun l => l.length) =
      Except.ok 2 := by
  have h := hist_skips_unresolvable envC9 "A" rfl rfl rfl ?_
  · exact h
  · intro si hsi tx htx
    have hsi' : si ∈ [(⟨"u1", some 3, true⟩ : SigInfo), ⟨"u2", some 2, true⟩,
        ⟨"u3", some 1, true⟩] := hsi
    rcases List.mem_cons.mp hsi' with rfl | hsi2
    · have h' : some txDataC9 = some tx := htx
      injection h' with he
      subst he
      exact ⟨by decide, rfl, by decide⟩
    rcases List.mem_cons.mp hsi2 with rfl | hsi3
    · have h' : (none : Option TxData) = some tx := htx
      simp at h'
    rcases List.mem_cons.mp hsi3 with rfl | hsi4
    · have h' : some txDataC9 = some tx := htx
      injection h' with he
      subst he
      exact ⟨by decide, rfl, by decide⟩
    · exact absurd hsi4 (by simp)

/-- Concrete balance environment for the C8 scenario. -/
def envC8 : BalanceEnv :=
  { getBalance := fun _ => some 2500000000, tokenAccounts := some [] }

/-- C8 witness: the scenario theorem applied to a concrete environment. -/
theorem wallet_balance_scenario_witness :
    get_wallet_balance envC8 "addr1" = Except.ok ⟨5 / 2, none, []⟩ :=
  wallet_balance_scenario envC8 "addr1" rfl rfl

end SolApp
